import Mathlib

/-!
  # Verification of the credential-pool subsystem

  Shallow embedding of `src/perplexity/server/client_pool.py`: the
  per-credential record (`ClientWrapper`), the pool container
  (`ClientPool`) with its admin mutations, the weighted round-robin
  selector (`get_client`), the outcome reporters, and the per-credential
  probe (`test_client`).

  Modelling conventions:
  * Timestamps (`time.time()`, `available_after`) are seconds as `Nat`;
    the code only adds offsets to and compares these values.
  * `weight` is `Int`, matching Python's signed integer arithmetic in
    `max(MIN_WEIGHT, weight - WEIGHT_DECAY)`.
  * The Python `dict` (insertion ordered) is an association list
    `List (String × ClientWrapper)`; `_rotation_order` is a `List String`
    and `_index` a `Nat`.
  * The opaque upstream `Client` handle is represented by the id of the
    wrapper that owns it: where the code returns `wrapper.client` the
    model returns `some wrapper.id`.
  * Operations that can raise in Python (out-of-range list indexing,
    `KeyError` on dict access) return `Option`, `none` marking the fault.
  * The Telegram notifier is abstracted to a count of emitted
    notifications; ISO-8601 rendering of timestamps is dropped (the model
    returns the raw timestamp where the code formats it).
-/

/-- Per-credential record: `ClientWrapper` from `client_pool.py`. -/
structure ClientWrapper where
  id : String
  fail_count : Nat
  available_after : Nat
  request_count : Nat
  weight : Int
  pro_fail_count : Nat
  enabled : Bool
  state : String
  last_heartbeat : Option Nat
deriving DecidableEq, Repr

namespace ClientWrapper

/-- Constant `DEFAULT_WEIGHT = 100`. -/
def DEFAULT_WEIGHT : Int := 100

/-- Constant `MIN_WEIGHT = 10`. -/
def MIN_WEIGHT : Int := 10

/-- Constant `WEIGHT_DECAY = 10`. -/
def WEIGHT_DECAY : Int := 10

/-- Constant `WEIGHT_RECOVERY = 5`. -/
def WEIGHT_RECOVERY : Int := 5

/-- Constant `INITIAL_BACKOFF = 60` seconds. -/
def INITIAL_BACKOFF : Nat := 60

/-- Constant `MAX_BACKOFF = 3600` seconds. -/
def MAX_BACKOFF : Nat := 3600

/-- Constructor defaults of `ClientWrapper.__init__`. -/
def init (cid : String) : ClientWrapper :=
  { id := cid
    fail_count := 0
    available_after := 0
    request_count := 0
    weight := DEFAULT_WEIGHT
    pro_fail_count := 0
    enabled := true
    state := "unknown"
    last_heartbeat := none }

/-- Predicate `is_available`: enabled and not in backoff (`time.time() >= available_after`). -/
def is_available (w : ClientWrapper) (now : Nat) : Bool :=
  w.enabled && decide (w.available_after ≤ now)

/-- Reporter `mark_failure`: increment `fail_count`, set
`available_after = now + min(MAX_BACKOFF, INITIAL_BACKOFF * 2 ** (fail_count - 1))`
with the incremented `fail_count`. -/
def mark_failure (w : ClientWrapper) (now : Nat) : ClientWrapper :=
  let fc := w.fail_count + 1
  { w with
    fail_count := fc
    available_after := now + min MAX_BACKOFF (INITIAL_BACKOFF * 2 ^ (fc - 1)) }

/-- Reporter `mark_success`: reset failure state, bump `request_count`, and recover
weight (only when below `DEFAULT_WEIGHT`, exactly as the code guards it). -/
def mark_success (w : ClientWrapper) : ClientWrapper :=
  let w1 := { w with fail_count := 0, available_after := 0,
                     request_count := w.request_count + 1 }
  if w1.weight < DEFAULT_WEIGHT then
    { w1 with weight := min DEFAULT_WEIGHT (w1.weight + WEIGHT_RECOVERY) }
  else
    w1

/-- Reporter `mark_pro_failure`: bump `pro_fail_count`, decay weight with a floor. -/
def mark_pro_failure (w : ClientWrapper) : ClientWrapper :=
  { w with
    pro_fail_count := w.pro_fail_count + 1
    weight := max MIN_WEIGHT (w.weight - WEIGHT_DECAY) }

end ClientWrapper

/-- Repeated `mark_failure` reports, all observed at the same time `now`. -/
def iterateFailures (w : ClientWrapper) (now : Nat) : Nat → ClientWrapper
  | 0 => w
  | k + 1 => (iterateFailures w now k).mark_failure now

/-- Admin-operation outcome: the `status` field of the returned dict
(`"ok"` or `"error"`); the human-readable message is not modelled. -/
inductive AdminStatus where
  | ok
  | error
deriving DecidableEq, Repr

/-- Pool state: the fields of `ClientPool` that the specified operations
read or write (`clients` dict, `_rotation_order`, `_index`, `_mode`). -/
structure ClientPool where
  clients : List (String × ClientWrapper)
  rotation_order : List String
  index : Nat
  mode : String
deriving DecidableEq, Repr

/-- Dict lookup `self.clients.get(client_id)` on the association list. -/
def lookupClient : List (String × ClientWrapper) → String → Option ClientWrapper
  | [], _ => none
  | kv :: rest, cid => if kv.1 = cid then some kv.2 else lookupClient rest cid

/-- Membership test `client_id in self.clients`. -/
def containsClient (cs : List (String × ClientWrapper)) (cid : String) : Bool :=
  (lookupClient cs cid).isSome

/-- In-place mutation of the wrapper stored under `cid` (Python mutates the
object held by the dict; keys are unique, so updating the first and only
entry with that key is the same mutation). -/
def updateClient : List (String × ClientWrapper) → String →
    (ClientWrapper → ClientWrapper) → List (String × ClientWrapper)
  | [], _, _ => []
  | kv :: rest, cid, f =>
      if kv.1 = cid then (kv.1, f kv.2) :: rest
      else kv :: updateClient rest cid f

/-- Deletion `del self.clients[client_id]`: drop the (first and only) entry keyed `cid`. -/
def eraseClient : List (String × ClientWrapper) → String → List (String × ClientWrapper)
  | [], _ => []
  | kv :: rest, cid => if kv.1 = cid then rest else kv :: eraseClient rest cid

/-- Removal `list.remove(x)`: drop the first occurrence. -/
def eraseId : List String → String → List String
  | [], _ => []
  | x :: rest, cid => if x = cid then rest else x :: eraseId rest cid

/-- Count `sum(1 for w in self.clients.values() if w.enabled)`. -/
def enabledCount : List (String × ClientWrapper) → Nat
  | [] => 0
  | kv :: rest => (if kv.2.enabled then 1 else 0) + enabledCount rest

namespace ClientPool

/-- Method `_add_client_internal` followed by `add_client`'s checks: reject a
duplicate id, else append a fresh wrapper to the dict and the rotation
order, and move the mode to `"pool"` once more than one client exists. -/
def add_client (p : ClientPool) (cid : String) : ClientPool × AdminStatus :=
  if containsClient p.clients cid then (p, .error)
  else
    let p1 : ClientPool :=
      { p with
        clients := p.clients ++ [(cid, ClientWrapper.init cid)]
        rotation_order := p.rotation_order ++ [cid] }
    let p2 : ClientPool :=
      if (p1.mode = "single" ∨ p1.mode = "anonymous") ∧ p1.clients.length > 1
      then { p1 with mode := "pool" } else p1
    (p2, .ok)

/-- Method `remove_client`: reject an unknown id or a pool of size ≤ 1; else
delete the entry, drop the id from the rotation order, and reset the
cursor to 0 when it falls past the end. -/
def remove_client (p : ClientPool) (cid : String) : ClientPool × AdminStatus :=
  if ¬ containsClient p.clients cid then (p, .error)
  else if p.clients.length ≤ 1 then (p, .error)
  else
    let cs := eraseClient p.clients cid
    let rot := eraseId p.rotation_order cid
    let idx := if rot.length ≤ p.index then 0 else p.index
    ({ p with clients := cs, rotation_order := rot, index := idx }, .ok)

/-- Method `enable_client`: reject an unknown id, else set `enabled = True`. -/
def enable_client (p : ClientPool) (cid : String) : ClientPool × AdminStatus :=
  match lookupClient p.clients cid with
  | none => (p, .error)
  | some _ =>
      ({ p with clients := updateClient p.clients cid (fun w => { w with enabled := true }) },
       .ok)

/-- Method `disable_client`: reject an unknown id, and reject disabling the last
enabled client; else set `enabled = False`. -/
def disable_client (p : ClientPool) (cid : String) : ClientPool × AdminStatus :=
  match lookupClient p.clients cid with
  | none => (p, .error)
  | some w =>
      if enabledCount p.clients ≤ 1 ∧ w.enabled then (p, .error)
      else
        ({ p with clients := updateClient p.clients cid (fun v => { v with enabled := false }) },
         .ok)

/-- Method `reset_client`: reject an unknown id, else clear failure counters and
cooldown and restore the default weight. -/
def reset_client (p : ClientPool) (cid : String) : ClientPool × AdminStatus :=
  match lookupClient p.clients cid with
  | none => (p, .error)
  | some _ =>
      ({ p with clients := updateClient p.clients cid (fun w =>
          { w with fail_count := 0, pro_fail_count := 0, available_after := 0,
                   weight := ClientWrapper.DEFAULT_WEIGHT }) },
       .ok)

/-- Method `mark_client_success`: silently ignore an unknown id. -/
def mark_client_success (p : ClientPool) (cid : String) : ClientPool :=
  match lookupClient p.clients cid with
  | none => p
  | some _ => { p with clients := updateClient p.clients cid ClientWrapper.mark_success }

/-- Method `mark_client_failure`: silently ignore an unknown id. -/
def mark_client_failure (p : ClientPool) (cid : String) (now : Nat) : ClientPool :=
  match lookupClient p.clients cid with
  | none => p
  | some _ =>
      { p with clients := updateClient p.clients cid (fun w => w.mark_failure now) }

/-- Method `mark_client_pro_failure`: silently ignore an unknown id. -/
def mark_client_pro_failure (p : ClientPool) (cid : String) : ClientPool :=
  match lookupClient p.clients cid with
  | none => p
  | some _ => { p with clients := updateClient p.clients cid ClientWrapper.mark_pro_failure }

end ClientPool

/-- The list comprehension
`[self.clients[cid] for cid in self._rotation_order ...]` indexes the dict
at every rotation id; `none` marks the `KeyError` fault. -/
def collectWrappers (cs : List (String × ClientWrapper)) :
    List String → Option (List ClientWrapper)
  | [] => some []
  | cid :: rest =>
      match lookupClient cs cid with
      | none => none
      | some w =>
          match collectWrappers cs rest with
          | none => none
          | some ws => some (w :: ws)

/-- Maximum `max(w.weight for w in ws)` over a non-empty list (`0` is never used:
the selector only applies this to a non-empty list). -/
def maxWeight : List ClientWrapper → Int
  | [] => 0
  | [w] => w.weight
  | w :: v :: ws => max w.weight (maxWeight (v :: ws))

/-- Minimiser `min(self.clients.values(), key=lambda w: w.available_after)`:
first minimiser in insertion order, as Python's `min` returns. -/
def minByAvail : List (String × ClientWrapper) → Option ClientWrapper
  | [] => none
  | kv :: rest =>
      match minByAvail rest with
      | none => some kv.2
      | some w => if w.available_after < kv.2.available_after then some w else some kv.2

/-- The selector's round-robin loop
(`for _ in range(len(self._rotation_order)) ...`): read the id at the
cursor, advance the cursor modulo the length, stop at the first id in the
top tier. `none` marks an out-of-range list access. -/
def rrLoop (rot : List String) (topIds : List String) : Nat → Nat → Option (Option String × Nat)
  | idx, 0 => some (none, idx)
  | idx, fuel + 1 =>
      match rot[idx]? with
      | none => none
      | some cid =>
          let idx1 := (idx + 1) % rot.length
          if cid ∈ topIds then some (some cid, idx1)
          else rrLoop rot topIds idx1 fuel

namespace ClientPool

/-- The selector's step over the already-computed top tier
(`top_weight_clients`): the single-member shortcut, the round-robin loop
with its cursor commit, and the final `top_weight_clients[0]` fallback. -/
def selectFromTop (p : ClientPool) (top : List ClientWrapper) :
    Option ((Option String × Option String) × Nat) :=
  if top.length = 1 then
    match top.head? with
    | none => none
    | some t => some ((some t.id, some t.id), p.index)
  else
    match rrLoop p.rotation_order (top.map (fun w => w.id)) p.index
        p.rotation_order.length with
    | none => none
    | some (some cid, idx) =>
        (match lookupClient p.clients cid with
         | none => none
         | some w => some ((some cid, some w.id), idx))
    | some (none, idx) =>
        match top.head? with
        | none => none
        | some t => some ((some t.id, some t.id), idx)

/-- Body of `get_client`: the returned `(client_id, client)` pair (the
opaque handle rendered as the owning wrapper's id) and the new value of
the rotation cursor, the only pool field `get_client` writes. -/
def selectClient (p : ClientPool) (now : Nat) :
    Option ((Option String × Option String) × Nat) :=
  if p.clients = [] then some ((none, none), p.index)
  else
    match collectWrappers p.clients p.rotation_order with
    | none => none
    | some ws =>
        let available := ws.filter (fun w => w.is_available now)
        if available = [] then
          match minByAvail p.clients with
          | none => none
          | some w => some ((some w.id, none), p.index)
        else
          selectFromTop p (available.filter (fun w => w.weight = maxWeight available))

/-- Method `get_client`: weighted round-robin selection; the cursor write is the
only state change. -/
def get_client (p : ClientPool) (now : Nat) :
    Option ((Option String × Option String) × ClientPool) :=
  (p.selectClient now).map (fun ri => (ri.1, { p with index := ri.2 }))

/-- Method `get_earliest_available_time`: `none` when the pool is empty or some
client is available; otherwise the minimal `available_after` (the code
renders it as an ISO-8601 string; the model keeps the raw timestamp). -/
def get_earliest_available_time (p : ClientPool) (now : Nat) : Option Nat :=
  if p.clients = [] then none
  else if p.clients.any (fun kv => kv.2.is_available now) then none
  else (minByAvail p.clients).map (fun w => w.available_after)

end ClientPool

/-- What the probe observes for an owned client, after the two sequential
checks of `test_client`: the session check fails, or the lightweight query
yields an answer, yields none, or raises. -/
inductive ProbeObs where
  | notLoggedIn
  | answerOk
  | noAnswer
  | probeError
deriving DecidableEq, Repr

/-- Probe `test_client` acting on one wrapper: `own` is `client.own` (whether the
client holds cookie credentials), `obs` the probe observation. Returns the
updated wrapper and the number of notifications emitted through the
Notifier (`_send_telegram_notification`). -/
def test_client (w : ClientWrapper) (own : Bool) (now : Nat) (obs : ProbeObs) :
    ClientWrapper × Nat :=
  if own = false then
    ({ w with state := "anonymous", last_heartbeat := some now }, 0)
  else
    match obs with
    | .notLoggedIn =>
        ({ w with state := "offline", last_heartbeat := some now },
         if w.state ≠ "offline" then 1 else 0)
    | .answerOk =>
        ({ w with state := "normal", last_heartbeat := some now }, 0)
    | .noAnswer =>
        ({ w with state := "offline", last_heartbeat := some now },
         if w.state ≠ "offline" then 1 else 0)
    | .probeError =>
        ({ w with state := "offline", last_heartbeat := some now },
         if w.state ≠ "offline" then 1 else 0)

/-- One step of the pool's public mutators, for stating reachability
invariants: the admin operations, the outcome reports, and `get_client`
(which moves the rotation cursor). -/
inductive PoolOp where
  | add (cid : String)
  | remove (cid : String)
  | enable (cid : String)
  | disable (cid : String)
  | reset (cid : String)
  | acquire (now : Nat)
  | success (cid : String)
  | failure (cid : String) (now : Nat)
  | proFailure (cid : String)

/-- Apply one operation; `none` propagates a `get_client` fault. -/
def applyOp (p : ClientPool) : PoolOp → Option ClientPool
  | .add cid => some (p.add_client cid).1
  | .remove cid => some (p.remove_client cid).1
  | .enable cid => some (p.enable_client cid).1
  | .disable cid => some (p.disable_client cid).1
  | .reset cid => some (p.reset_client cid).1
  | .acquire now => (p.get_client now).map (fun r => r.2)
  | .success cid => some (p.mark_client_success cid)
  | .failure cid now => some (p.mark_client_failure cid now)
  | .proFailure cid => some (p.mark_client_pro_failure cid)

/-- Apply a sequence of operations. -/
def applyOps (p : ClientPool) : List PoolOp → Option ClientPool
  | [] => some p
  | op :: ops =>
      match applyOp p op with
      | none => none
      | some p1 => applyOps p1 ops

/-- Well-formedness of a pool state, as established by every bootstrap
path with distinct ids and preserved by the public operations: wrappers
carry their own key as `id`, keys are distinct, the rotation order lists
exactly the dict keys, the pool is non-empty, and the cursor is in
bounds. -/
def WFpool (p : ClientPool) : Prop :=
  (∀ kv ∈ p.clients, kv.2.id = kv.1) ∧
  (p.clients.map Prod.fst).Nodup ∧
  p.rotation_order = p.clients.map Prod.fst ∧
  p.clients ≠ [] ∧
  p.index < p.rotation_order.length

instance (p : ClientPool) : Decidable (WFpool p) := by
  unfold WFpool; infer_instance

/-- Eight acquire-then-success cycles at time 0, returning the selected
ids (`none` on a selector fault or an exhausted pool). -/
def cycleIds : Nat → ClientPool → Option (List String)
  | 0, _ => some []
  | n + 1, p =>
      match p.get_client 0 with
      | some ((some cid, some _), p1) =>
          match cycleIds n (p1.mark_client_success cid) with
          | some ids => some (cid :: ids)
          | none => none
      | _ => none

/-- Pool for the literal weighted-selection scenario: `A` and `B` at the
default weight 100, `C` at weight 50, all available. -/
def pool7 : ClientPool :=
  { clients := [("A", ClientWrapper.init "A"), ("B", ClientWrapper.init "B"),
                ("C", { ClientWrapper.init "C" with weight := 50 })]
    rotation_order := ["A", "B", "C"]
    index := 0
    mode := "pool" }

/-- Pool with a single record in cooldown until timestamp 300: the
exhausted-pool scenario. -/
def pool1 : ClientPool :=
  { clients := [("A", { ClientWrapper.init "A" with available_after := 300 })]
    rotation_order := ["A"]
    index := 0
    mode := "single" }

/-- Pool with an enabled record `A` and a disabled record `B`: the state
that separates last-record protection from last-enabled-record
protection. -/
def pool2 : ClientPool :=
  { clients := [("A", ClientWrapper.init "A"),
                ("B", { ClientWrapper.init "B" with enabled := false })]
    rotation_order := ["A", "B"]
    index := 0
    mode := "pool" }

/-! ## Record-level lemmas -/

theorem iterateFailures_fail_count (w : ClientWrapper) (now k : Nat) :
    (iterateFailures w now k).fail_count = w.fail_count + k := by
  induction k with
  | zero => rfl
  | succ k ih =>
      simp only [iterateFailures, ClientWrapper.mark_failure, ih]
      omega

theorem iterateFailures_avail (w : ClientWrapper) (now k : Nat) (hk : 1 ≤ k) :
    (iterateFailures w now k).available_after =
      now + min ClientWrapper.MAX_BACKOFF
        (ClientWrapper.INITIAL_BACKOFF * 2 ^ (w.fail_count + k - 1)) := by
  cases k with
  | zero => omega
  | succ k =>
      simp only [iterateFailures, ClientWrapper.mark_failure, iterateFailures_fail_count]
      simp

/-- C4: each `mark_failure` increments `fail_count`, sets
`available_after = now + min(3600, 60 * 2 ^ (fail_count - 1))` with the
incremented count, and leaves the weight unchanged; starting from
`fail_count = 0` the successive cooldown offsets are
60, 120, 240, 480, 960, 1920, 3600 seconds, and every failure from the
seventh on saturates at 3600 seconds. -/
theorem mark_failure_backoff (w : ClientWrapper) (now : Nat) :
    (w.mark_failure now).fail_count = w.fail_count + 1 ∧
    (w.mark_failure now).available_after =
      now + min ClientWrapper.MAX_BACKOFF
        (ClientWrapper.INITIAL_BACKOFF * 2 ^ (w.fail_count + 1 - 1)) ∧
    (w.mark_failure now).weight = w.weight ∧
    (w.fail_count = 0 →
      (List.range 7).map (fun i => (iterateFailures w now (i + 1)).available_after) =
        [now + 60, now + 120, now + 240, now + 480, now + 960, now + 1920, now + 3600]) ∧
    (∀ k, 7 ≤ k → w.fail_count = 0 →
      (iterateFailures w now k).available_after = now + 3600) := by
  refine ⟨rfl, rfl, rfl, ?_, ?_⟩
  · intro h
    simp only [show List.range 7 = [0, 1, 2, 3, 4, 5, 6] from rfl, List.map_cons,
      List.map_nil]
    rw [iterateFailures_avail w now 1 (by omega), iterateFailures_avail w now 2 (by omega),
      iterateFailures_avail w now 3 (by omega), iterateFailures_avail w now 4 (by omega),
      iterateFailures_avail w now 5 (by omega), iterateFailures_avail w now 6 (by omega),
      iterateFailures_avail w now 7 (by omega), h]
    norm_num [ClientWrapper.MAX_BACKOFF, ClientWrapper.INITIAL_BACKOFF]
  · intro k hk h
    rw [iterateFailures_avail w now k (by omega), h]
    have h64 : (64 : Nat) ≤ 2 ^ (k - 1) := by
      calc (64 : Nat) = 2 ^ 6 := by norm_num
        _ ≤ 2 ^ (k - 1) := Nat.pow_le_pow_right (by norm_num) (by omega)
    simp only [Nat.zero_add, ClientWrapper.MAX_BACKOFF, ClientWrapper.INITIAL_BACKOFF]
    omega

/-- Witness for `mark_failure_backoff` at a concrete record: eight
consecutive failures from a fresh record saturate at a 3600-second
cooldown. -/
theorem mark_failure_backoff_witness :
    (iterateFailures (ClientWrapper.init "A") 5 8).available_after = 5 + 3600 :=
  (mark_failure_backoff (ClientWrapper.init "A") 5).2.2.2.2 8 (by norm_num) rfl

/-- C5: `mark_success` zeroes `fail_count` and `available_after`, bumps
`request_count`, and (whenever the weight respects the invariant
`weight ≤ DEFAULT_WEIGHT`) sets the weight to
`min(DEFAULT_WEIGHT, weight + WEIGHT_RECOVERY)`; in particular a single
success after any number of consecutive failures restores
`fail_count = 0` and `available_after = 0`. -/
theorem mark_success_resets (w : ClientWrapper) (now k : Nat) :
    (w.mark_success).fail_count = 0 ∧
    (w.mark_success).available_after = 0 ∧
    (w.mark_success).request_count = w.request_count + 1 ∧
    (w.weight ≤ ClientWrapper.DEFAULT_WEIGHT →
      (w.mark_success).weight =
        min ClientWrapper.DEFAULT_WEIGHT (w.weight + ClientWrapper.WEIGHT_RECOVERY)) ∧
    ((iterateFailures w now k).mark_success).fail_count = 0 ∧
    ((iterateFailures w now k).mark_success).available_after = 0 := by
  refine ⟨?_, ?_, ?_, ?_, ?_, ?_⟩
  · simp only [ClientWrapper.mark_success]; split <;> rfl
  · simp only [ClientWrapper.mark_success]; split <;> rfl
  · simp only [ClientWrapper.mark_success]; split <;> rfl
  · intro h
    simp only [ClientWrapper.mark_success]
    split
    · rfl
    · rename_i hlt
      simp only [ClientWrapper.DEFAULT_WEIGHT, ClientWrapper.WEIGHT_RECOVERY] at *
      omega
  · simp only [ClientWrapper.mark_success]; split <;> rfl
  · simp only [ClientWrapper.mark_success]; split <;> rfl

/-- Witness for `mark_success_resets`: a fresh record after three failures
and one success is fully reset, with the weight formula holding at the
default weight. -/
theorem mark_success_resets_witness :
    ((ClientWrapper.init "A").mark_success).weight =
      min ClientWrapper.DEFAULT_WEIGHT
        ((ClientWrapper.init "A").weight + ClientWrapper.WEIGHT_RECOVERY) ∧
    ((iterateFailures (ClientWrapper.init "A") 0 3).mark_success).fail_count = 0 :=
  ⟨(mark_success_resets (ClientWrapper.init "A") 0 3).2.2.2.1 (by decide),
   (mark_success_resets (ClientWrapper.init "A") 0 3).2.2.2.2.1⟩

/-- C6: `mark_pro_failure` increments `pro_fail_count`, decays the weight
to `max(MIN_WEIGHT, weight - WEIGHT_DECAY)`, leaves `fail_count` and
`available_after` (and hence availability at any time) unchanged. -/
theorem mark_pro_failure_decay (w : ClientWrapper) (now : Nat) :
    (w.mark_pro_failure).pro_fail_count = w.pro_fail_count + 1 ∧
    (w.mark_pro_failure).weight =
      max ClientWrapper.MIN_WEIGHT (w.weight - ClientWrapper.WEIGHT_DECAY) ∧
    (w.mark_pro_failure).fail_count = w.fail_count ∧
    (w.mark_pro_failure).available_after = w.available_after ∧
    (w.mark_pro_failure).enabled = w.enabled ∧
    (w.mark_pro_failure).is_available now = w.is_available now := by
  refine ⟨rfl, rfl, rfl, rfl, rfl, rfl⟩

/-- C8: a probe emits exactly one notification iff it lands the record in
`offline` liveness from a state that was not already `offline`; staying
`offline` and leaving `offline` both emit none. -/
theorem test_client_edge_notification (w : ClientWrapper) (own : Bool) (now : Nat)
    (obs : ProbeObs) :
    (test_client w own now obs).2 =
      if (test_client w own now obs).1.state = "offline" ∧ w.state ≠ "offline"
      then 1 else 0 := by
  cases own <;> cases obs <;> by_cases h : w.state = "offline" <;>
    simp [test_client, h]

/-- C7: on the pool `[A(weight 100), B(weight 100), C(weight 50)]`, all
available, eight consecutive acquire-then-success cycles select ids in the
round-robin pattern `A,B,A,B,A,B,A,B`, and `C` is never selected. -/
theorem weighted_rotation_pattern :
    cycleIds 8 pool7 = some ["A", "B", "A", "B", "A", "B", "A", "B"] ∧
    "C" ∉ ["A", "B", "A", "B", "A", "B", "A", "B"] := by
  refine ⟨by decide, by decide⟩

/-! ## Association-list lemmas -/

theorem lookup_mem {cs : List (String × ClientWrapper)} {cid : String} {w : ClientWrapper}
    (h : lookupClient cs cid = some w) : (cid, w) ∈ cs := by
  induction cs with
  | nil => simp [lookupClient] at h
  | cons kv rest ih =>
      by_cases hk : kv.1 = cid
      · simp only [lookupClient, hk, if_pos] at h
        subst hk
        cases h
        exact List.mem_cons_self _ _
      · simp only [lookupClient, hk, if_neg, if_false] at h
        exact List.mem_cons_of_mem _ (ih h)

theorem mem_lookup_isSome {cs : List (String × ClientWrapper)} {cid : String}
    {w : ClientWrapper} (h : (cid, w) ∈ cs) : (lookupClient cs cid).isSome := by
  induction cs with
  | nil => simp at h
  | cons kv rest ih =>
      by_cases hk : kv.1 = cid
      · simp [lookupClient, hk]
      · rcases List.mem_cons.1 h with h1 | h1
        · cases h1; simp at hk
        · simpa [lookupClient, hk] using ih h1

theorem lookup_isSome_iff {cs : List (String × ClientWrapper)} {cid : String} :
    (lookupClient cs cid).isSome ↔ cid ∈ cs.map Prod.fst := by
  constructor
  · intro h
    rcases Option.isSome_iff_exists.1 h with ⟨w, hw⟩
    exact List.mem_map.2 ⟨(cid, w), lookup_mem hw, rfl⟩
  · intro h
    rcases List.mem_map.1 h with ⟨kv, hkv, hfst⟩
    rcases kv with ⟨k1, k2⟩
    cases hfst
    exact mem_lookup_isSome hkv

theorem updateClient_map_fst (cs : List (String × ClientWrapper)) (cid : String)
    (f : ClientWrapper → ClientWrapper) :
    (updateClient cs cid f).map Prod.fst = cs.map Prod.fst := by
  induction cs with
  | nil => rfl
  | cons kv rest ih =>
      by_cases hk : kv.1 = cid <;> simp [updateClient, hk, ih]

theorem updateClient_length (cs : List (String × ClientWrapper)) (cid : String)
    (f : ClientWrapper → ClientWrapper) :
    (updateClient cs cid f).length = cs.length := by
  have := congrArg List.length (updateClient_map_fst cs cid f)
  simpa using this

theorem updateClient_ids {cs : List (String × ClientWrapper)} {cid : String}
    {f : ClientWrapper → ClientWrapper} (hcs : ∀ kv ∈ cs, kv.2.id = kv.1)
    (hf : ∀ w, (f w).id = w.id) :
    ∀ kv ∈ updateClient cs cid f, kv.2.id = kv.1 := by
  induction cs with
  | nil => intro kv h; simp [updateClient] at h
  | cons kv0 rest ih =>
      intro kv h
      by_cases hk : kv0.1 = cid
      · simp only [updateClient, hk, if_pos] at h
        rcases List.mem_cons.1 h with h1 | h1
        · subst h1
          show (f kv0.2).id = cid
          rw [hf, ← hk]
          exact hcs kv0 (List.mem_cons_self _ _)
        · exact hcs kv (List.mem_cons_of_mem _ h1)
      · simp only [updateClient, hk, if_neg, if_false] at h
        rcases List.mem_cons.1 h with h1 | h1
        · subst h1; exact hcs kv (List.mem_cons_self _ _)
        · exact ih (fun kv2 h2 => hcs kv2 (List.mem_cons_of_mem _ h2)) kv h1

theorem eraseClient_map_fst (cs : List (String × ClientWrapper)) (cid : String) :
    (eraseClient cs cid).map Prod.fst = eraseId (cs.map Prod.fst) cid := by
  induction cs with
  | nil => rfl
  | cons kv rest ih =>
      by_cases hk : kv.1 = cid <;> simp [eraseClient, eraseId, hk, ih]

theorem mem_eraseId {l : List String} {cid x : String} (h : x ∈ eraseId l cid) : x ∈ l := by
  induction l with
  | nil => simp [eraseId] at h
  | cons a rest ih =>
      by_cases ha : a = cid
      · simp only [eraseId, ha, if_pos] at h
        exact List.mem_cons_of_mem _ (by simpa [ha] using h)
      · simp only [eraseId, ha, if_neg, if_false] at h
        rcases List.mem_cons.1 h with h1 | h1
        · exact h1 ▸ List.mem_cons_self _ _
        · exact List.mem_cons_of_mem _ (ih h1)

theorem eraseId_nodup {l : List String} {cid : String} (h : l.Nodup) :
    (eraseId l cid).Nodup := by
  induction l with
  | nil => simp [eraseId]
  | cons a rest ih =>
      rcases List.nodup_cons.1 h with ⟨ha, hrest⟩
      by_cases hac : a = cid
      · simpa [eraseId, hac] using hrest
      · simp only [eraseId, hac, if_neg, if_false]
        exact List.nodup_cons.2 ⟨fun hmem => ha (mem_eraseId hmem), ih hrest⟩

theorem eraseClient_mem {cs : List (String × ClientWrapper)} {cid : String}
    {kv : String × ClientWrapper} (h : kv ∈ eraseClient cs cid) : kv ∈ cs := by
  induction cs with
  | nil => simp [eraseClient] at h
  | cons kv0 rest ih =>
      by_cases hk : kv0.1 = cid
      · simp only [eraseClient, hk, if_pos] at h
        exact List.mem_cons_of_mem _ h
      · simp only [eraseClient, hk, if_neg, if_false] at h
        rcases List.mem_cons.1 h with h1 | h1
        · exact h1 ▸ List.mem_cons_self _ _
        · exact List.mem_cons_of_mem _ (ih h1)

theorem eraseClient_length_ge (cs : List (String × ClientWrapper)) (cid : String) :
    cs.length ≤ (eraseClient cs cid).length + 1 := by
  induction cs with
  | nil => simp [eraseClient]
  | cons kv rest ih =>
      by_cases hk : kv.1 = cid
      · simp [eraseClient, hk]
      · simp only [eraseClient, hk, if_neg, if_false, List.length_cons]
        omega

theorem enabledCount_disable_enabled {cs : List (String × ClientWrapper)} {cid : String}
    {w : ClientWrapper} (h : lookupClient cs cid = some w) (hw : w.enabled = true) :
    enabledCount (updateClient cs cid (fun v => { v with enabled := false })) + 1 =
      enabledCount cs := by
  induction cs with
  | nil => simp [lookupClient] at h
  | cons kv rest ih =>
      by_cases hk : kv.1 = cid
      · simp only [lookupClient, hk, if_pos] at h
        cases h
        simp [updateClient, hk, enabledCount, hw]
        omega
      · simp only [lookupClient, hk, if_neg, if_false] at h
        simp only [updateClient, hk, if_neg, if_false, enabledCount]
        have := ih h
        omega

theorem enabledCount_disable_disabled {cs : List (String × ClientWrapper)} {cid : String}
    {w : ClientWrapper} (h : lookupClient cs cid = some w) (hw : w.enabled = false) :
    enabledCount (updateClient cs cid (fun v => { v with enabled := false })) =
      enabledCount cs := by
  induction cs with
  | nil => simp [lookupClient] at h
  | cons kv rest ih =>
      by_cases hk : kv.1 = cid
      · simp only [lookupClient, hk, if_pos] at h
        cases h
        simp [updateClient, hk, enabledCount, hw]
      · simp only [lookupClient, hk, if_neg, if_false] at h
        simp only [updateClient, hk, if_neg, if_false, enabledCount]
        have := ih h
        omega

/-! ## Selector lemmas -/

theorem collect_isSome {cs : List (String × ClientWrapper)} {rot : List String}
    (h : ∀ cid ∈ rot, (lookupClient cs cid).isSome) :
    (collectWrappers cs rot).isSome := by
  induction rot with
  | nil => simp [collectWrappers]
  | cons cid rest ih =>
      have h1 := h cid (List.mem_cons_self _ _)
      rcases Option.isSome_iff_exists.1 h1 with ⟨w, hw⟩
      have h2 := ih (fun c hc => h c (List.mem_cons_of_mem _ hc))
      rcases Option.isSome_iff_exists.1 h2 with ⟨ws, hws⟩
      simp [collectWrappers, hw, hws]

theorem collect_mem {cs : List (String × ClientWrapper)} {rot : List String}
    {ws : List ClientWrapper} (h : collectWrappers cs rot = some ws) :
    ∀ w ∈ ws, ∃ cid ∈ rot, lookupClient cs cid = some w := by
  induction rot generalizing ws with
  | nil =>
      simp only [collectWrappers] at h
      cases h
      intro w hw
      simp at hw
  | cons cid rest ih =>
      simp only [collectWrappers] at h
      rcases hlk : lookupClient cs cid with _ | w0
      · rw [hlk] at h; cases h
      · rw [hlk] at h
        rcases hc : collectWrappers cs rest with _ | ws0
        · rw [hc] at h; cases h
        · rw [hc] at h
          cases h
          intro w hw
          rcases List.mem_cons.1 hw with h1 | h1
          · exact ⟨cid, List.mem_cons_self _ _, h1 ▸ hlk⟩
          · rcases ih hc w h1 with ⟨c, hcmem, hcl⟩
            exact ⟨c, List.mem_cons_of_mem _ hcmem, hcl⟩

theorem maxWeight_attained {l : List ClientWrapper} (h : l ≠ []) :
    ∃ w ∈ l, w.weight = maxWeight l := by
  induction l with
  | nil => simp at h
  | cons a rest ih =>
      cases rest with
      | nil => exact ⟨a, List.mem_cons_self _ _, rfl⟩
      | cons b rest2 =>
          rcases ih (by simp) with ⟨w, hw, hweq⟩
          by_cases hle : maxWeight (b :: rest2) ≤ a.weight
          · refine ⟨a, List.mem_cons_self _ _, ?_⟩
            simp [maxWeight, max_eq_left hle]
          · refine ⟨w, List.mem_cons_of_mem _ hw, ?_⟩
            rw [hweq]
            simp [maxWeight, max_eq_right (le_of_not_le hle)]

theorem minByAvail_isSome {cs : List (String × ClientWrapper)} (h : cs ≠ []) :
    ∃ w, minByAvail cs = some w := by
  cases cs with
  | nil => simp at h
  | cons kv rest =>
      simp only [minByAvail]
      rcases minByAvail rest with _ | w
      · exact ⟨kv.2, rfl⟩
      · by_cases hlt : w.available_after < kv.2.available_after
        · exact ⟨w, by simp [hlt]⟩
        · exact ⟨kv.2, by simp [hlt]⟩

theorem minByAvail_le {cs : List (String × ClientWrapper)} {w : ClientWrapper}
    (h : minByAvail cs = some w) :
    ∀ kv ∈ cs, w.available_after ≤ kv.2.available_after := by
  induction cs generalizing w with
  | nil => simp [minByAvail] at h
  | cons kv0 rest ih =>
      rcases hr : minByAvail rest with _ | w0
      · simp only [minByAvail, hr] at h
        cases h
        intro kv hkv
        rcases List.mem_cons.1 hkv with h1 | h1
        · rw [h1]
        · cases rest with
          | nil => simp at h1
          | cons kv1 rest1 =>
              rcases @minByAvail_isSome (kv1 :: rest1) (by simp) with ⟨w1, hw1⟩
              rw [hw1] at hr; cases hr
      · simp only [minByAvail, hr] at h
        by_cases hlt : w0.available_after < kv0.2.available_after
        · rw [if_pos hlt] at h
          cases h
          intro kv hkv
          rcases List.mem_cons.1 hkv with h1 | h1
          · rw [h1]; omega
          · exact ih hr kv h1
        · rw [if_neg hlt] at h
          cases h
          intro kv hkv
          rcases List.mem_cons.1 hkv with h1 | h1
          · rw [h1]
          · have := ih hr kv h1
            omega

theorem minByAvail_mem {cs : List (String × ClientWrapper)} {w : ClientWrapper}
    (h : minByAvail cs = some w) : ∃ kv ∈ cs, kv.2 = w := by
  induction cs generalizing w with
  | nil => simp [minByAvail] at h
  | cons kv0 rest ih =>
      rcases hr : minByAvail rest with _ | w0
      · simp only [minByAvail, hr] at h
        cases h
        exact ⟨kv0, List.mem_cons_self _ _, rfl⟩
      · simp only [minByAvail, hr] at h
        by_cases hlt : w0.available_after < kv0.2.available_after
        · rw [if_pos hlt] at h
          cases h
          rcases ih hr with ⟨kv, hkv, hkv2⟩
          exact ⟨kv, List.mem_cons_of_mem _ hkv, hkv2⟩
        · rw [if_neg hlt] at h
          cases h
          exact ⟨kv0, List.mem_cons_self _ _, rfl⟩

theorem rrLoop_progress (rot topIds : List String) :
    ∀ fuel idx, idx < rot.length →
      ∃ res idx1, rrLoop rot topIds idx fuel = some (res, idx1) ∧ idx1 < rot.length := by
  intro fuel
  induction fuel with
  | zero => intro idx hidx; exact ⟨none, idx, rfl, hidx⟩
  | succ fuel ih =>
      intro idx hidx
      rcases hget : rot[idx]? with _ | cid
      · have := List.getElem?_eq_none_iff.1 hget; omega
      · have hmod : (idx + 1) % rot.length < rot.length :=
          Nat.mod_lt _ (by omega)
        by_cases hmem : cid ∈ topIds
        · exact ⟨some cid, (idx + 1) % rot.length, by simp only [rrLoop, hget, hmem,
            if_true, if_pos], hmod⟩
        · rcases ih ((idx + 1) % rot.length) hmod with ⟨res, idx1, hr, hb⟩
          refine ⟨res, idx1, ?_, hb⟩
          simp only [rrLoop, hget]
          rw [if_neg hmem]
          exact hr

theorem rrLoop_found {rot topIds : List String} :
    ∀ fuel idx cid idx1, rrLoop rot topIds idx fuel = some (some cid, idx1) →
      cid ∈ topIds := by
  intro fuel
  induction fuel with
  | zero => intro idx cid idx1 h; simp [rrLoop] at h
  | succ fuel ih =>
      intro idx cid idx1 h
      rcases hget : rot[idx]? with _ | c
      · simp only [rrLoop, hget] at h
        cases h
      · simp only [rrLoop, hget] at h
        by_cases hmem : c ∈ topIds
        · rw [if_pos hmem] at h
          cases h
          exact hmem
        · rw [if_neg hmem] at h
          exact ih _ _ _ h

/-- C9: reporting an outcome for an id that is not in the pool is a total
no-op: `mark_client_success`, `mark_client_failure`, and
`mark_client_pro_failure` return normally and leave the entire pool state
(records, rotation sequence, cursor, mode) unchanged. -/
theorem mark_unknown_id_noop (p : ClientPool) (cid : String) (now : Nat)
    (h : lookupClient p.clients cid = none) :
    p.mark_client_success cid = p ∧
    p.mark_client_failure cid now = p ∧
    p.mark_client_pro_failure cid = p := by
  refine ⟨?_, ?_, ?_⟩ <;>
    simp [ClientPool.mark_client_success, ClientPool.mark_client_failure,
      ClientPool.mark_client_pro_failure, h]

/-- Witness for `mark_unknown_id_noop`: reporting against the id `Z`,
absent from the two-record pool, changes nothing. -/
theorem mark_unknown_id_noop_witness :
    pool2.mark_client_success "Z" = pool2 ∧
    pool2.mark_client_failure "Z" 7 = pool2 ∧
    pool2.mark_client_pro_failure "Z" = pool2 :=
  mark_unknown_id_noop pool2 "Z" 7 (by decide)

/-- C2 counterexample: on a non-empty pool whose only record is in
cooldown until 300, `get_client` at time 0 returns the pair
`(some "A", none)` — the id of the soonest-available record and no
client — rather than `none` together with the earliest-availability
timestamp. -/
theorem get_client_exhausted_returns_id :
    pool1.get_client 0 = some ((some "A", none), pool1) ∧
    (some "A" ≠ (none : Option String)) :=
  ⟨by decide, by decide⟩

/-- C2 amended: on an empty pool `get_client` returns `(none, none)`; on a
non-empty pool with every record unavailable it returns no client together
with the id (not the timestamp) of the record whose `available_after` is
minimal over the pool, and the earliest-availability timestamp
`min(available_after)` is what the separate `get_earliest_available_time`
reports. -/
theorem get_client_exhausted_min (p : ClientPool) (now : Nat)
    (hrot : ∀ cid ∈ p.rotation_order, (lookupClient p.clients cid).isSome) :
    (p.clients = [] → p.get_client now = some ((none, none), p)) ∧
    (p.clients ≠ [] →
      (∀ kv ∈ p.clients, kv.2.is_available now = false) →
      ∃ w, minByAvail p.clients = some w ∧
        p.get_client now = some ((some w.id, none), p) ∧
        p.get_earliest_available_time now = some w.available_after ∧
        (∃ kv ∈ p.clients, kv.2 = w) ∧
        (∀ kv ∈ p.clients, w.available_after ≤ kv.2.available_after)) := by
  constructor
  · intro he
    simp only [ClientPool.get_client, ClientPool.selectClient, if_pos he, Option.map_some']
  · intro hne hunav
    rcases minByAvail_isSome hne with ⟨w, hw⟩
    rcases Option.isSome_iff_exists.1 (collect_isSome hrot) with ⟨ws, hws⟩
    have hfil : ws.filter (fun w => w.is_available now) = [] := by
      apply List.filter_eq_nil_iff.2
      intro x hx
      rcases collect_mem hws x hx with ⟨cid, _, hlk⟩
      have := hunav (cid, x) (lookup_mem hlk)
      simp [this]
    refine ⟨w, hw, ?_, ?_, minByAvail_mem hw, minByAvail_le hw⟩
    · simp only [ClientPool.get_client, ClientPool.selectClient, if_neg hne, hws, hfil,
        if_pos, hw, Option.map_some']
    · have hany : p.clients.any (fun kv => kv.2.is_available now) = false := by
        apply List.any_eq_false.2
        intro kv hkv
        simp [hunav kv hkv]
      simp [ClientPool.get_earliest_available_time, if_neg hne, hany, hw]

/-- Witness for `get_client_exhausted_min` on the one-record pool in
cooldown until 300, queried at time 0. -/
theorem get_client_exhausted_min_witness :
    ∃ w, minByAvail pool1.clients = some w ∧
      pool1.get_client 0 = some ((some w.id, none), pool1) ∧
      pool1.get_earliest_available_time 0 = some w.available_after ∧
      (∃ kv ∈ pool1.clients, kv.2 = w) ∧
      (∀ kv ∈ pool1.clients, w.available_after ≤ kv.2.available_after) :=
  (get_client_exhausted_min pool1 0 (by decide)).2 (by decide) (by decide)

theorem headOpt_mem {α : Type} {l : List α} {a : α} (h : l.head? = some a) : a ∈ l := by
  cases l with
  | nil => cases h
  | cons b t =>
      cases h
      exact List.mem_cons_self _ _

theorem collected_lookup_self {cs : List (String × ClientWrapper)} {rot : List String}
    {ws : List ClientWrapper} {w : ClientWrapper}
    (hids : ∀ kv ∈ cs, kv.2.id = kv.1)
    (hws : collectWrappers cs rot = some ws) (hw : w ∈ ws) :
    lookupClient cs w.id = some w := by
  rcases collect_mem hws w hw with ⟨cid, _, hlk⟩
  have hid : w.id = cid := hids (cid, w) (lookup_mem hlk)
  rw [hid]
  exact hlk

theorem selectFromTop_sound (p : ClientPool) (now : Nat) (top : List ClientWrapper)
    (htop : ∀ t ∈ top, lookupClient p.clients t.id = some t ∧ t.is_available now = true)
    (r : Option String × Option String) (idx : Nat)
    (h : p.selectFromTop top = some (r, idx)) :
    ∀ hid, r.2 = some hid →
      ∃ w, lookupClient p.clients hid = some w ∧ w.enabled = true ∧
        w.available_after ≤ now := by
  intro hid hr
  have avail_of : ∀ t ∈ top, t.enabled = true ∧ t.available_after ≤ now := by
    intro t ht
    have := (htop t ht).2
    simp only [ClientWrapper.is_available, Bool.and_eq_true, decide_eq_true_eq] at this
    exact this
  unfold ClientPool.selectFromTop at h
  by_cases hlen : top.length = 1
  · rw [if_pos hlen] at h
    rcases hh : top.head? with _ | t
    · simp only [hh] at h
      cases h
    · simp only [hh] at h
      cases h
      cases hr
      have ht := headOpt_mem hh
      exact ⟨t, (htop t ht).1, (avail_of t ht).1, (avail_of t ht).2⟩
  · rw [if_neg hlen] at h
    rcases hloop : rrLoop p.rotation_order (top.map (fun w => w.id)) p.index
        p.rotation_order.length with _ | res
    · simp only [hloop] at h
      cases h
    · rcases res with ⟨ores, idx0⟩
      rcases ores with _ | cid
      · simp only [hloop] at h
        rcases hh : top.head? with _ | t
        · simp only [hh] at h
          cases h
        · simp only [hh] at h
          cases h
          cases hr
          have ht := headOpt_mem hh
          exact ⟨t, (htop t ht).1, (avail_of t ht).1, (avail_of t ht).2⟩
      · simp only [hloop] at h
        rcases hlk : lookupClient p.clients cid with _ | w
        · simp only [hlk] at h
          cases h
        · simp only [hlk] at h
          cases h
          cases hr
          have hmem : cid ∈ top.map (fun w => w.id) := rrLoop_found _ _ _ _ hloop
          rcases List.mem_map.1 hmem with ⟨t, ht, hteq⟩
          have hlt : lookupClient p.clients cid = some t := by
            rw [← hteq]
            exact (htop t ht).1
          have hwt : w = t := by
            rw [hlk] at hlt
            injection hlt
          subst hwt
          refine ⟨w, ?_, (avail_of w ht).1, (avail_of w ht).2⟩
          rw [show w.id = cid from hteq]
          exact hlk

/-- C3: whenever `get_client` hands out a client (second component of the
returned pair is a credential, not `none`), the record it belongs to is
enabled and out of cooldown at the current time — disabled or cooling
records are never selected. -/
theorem selector_no_unavailable (p : ClientPool) (now : Nat)
    (hids : ∀ kv ∈ p.clients, kv.2.id = kv.1)
    (r : Option String × Option String) (p1 : ClientPool)
    (hgc : p.get_client now = some (r, p1)) :
    ∀ hid, r.2 = some hid →
      ∃ w, lookupClient p.clients hid = some w ∧ w.enabled = true ∧
        w.available_after ≤ now := by
  intro hid hr
  rcases hsel : p.selectClient now with _ | ri
  · rw [ClientPool.get_client, hsel] at hgc
    cases hgc
  · rw [ClientPool.get_client, hsel, Option.map_some'] at hgc
    injection hgc with h1
    injection h1 with hrr hpp
    subst hrr
    unfold ClientPool.selectClient at hsel
    by_cases hne : p.clients = []
    · rw [if_pos hne] at hsel
      cases hsel
      cases hr
    · rw [if_neg hne] at hsel
      rcases hws : collectWrappers p.clients p.rotation_order with _ | ws
      · simp only [hws] at hsel
        cases hsel
      · simp only [hws] at hsel
        by_cases hav : ws.filter (fun w => w.is_available now) = []
        · rw [if_pos hav] at hsel
          rcases hmin : minByAvail p.clients with _ | w
          · simp only [hmin] at hsel
            cases hsel
          · simp only [hmin] at hsel
            cases hsel
            cases hr
        · rw [if_neg hav] at hsel
          rcases ri with ⟨r0, idx0⟩
          refine selectFromTop_sound p now _ ?_ r0 idx0 hsel hid hr
          intro t ht
          have ht1 : t ∈ ws.filter (fun w => w.is_available now) :=
            (List.mem_filter.1 ht).1
          have ht2 : t ∈ ws := (List.mem_filter.1 ht1).1
          exact ⟨collected_lookup_self hids hws ht2, (List.mem_filter.1 ht1).2⟩

/-- Witness for `selector_no_unavailable`: on the three-record pool the
selector returns the handle of `A`, which is indeed enabled and out of
cooldown at time 0. -/
theorem selector_no_unavailable_witness :
    ∃ w, lookupClient pool7.clients "A" = some w ∧ w.enabled = true ∧
      w.available_after ≤ 0 :=
  selector_no_unavailable pool7 0 (by decide) ((some "A"), (some "A"))
    { pool7 with index := 1 } (by decide) "A" rfl

theorem selectFromTop_total (p : ClientPool) (top : List ClientWrapper)
    (hne : top ≠ [])
    (hlk : ∀ t ∈ top, (lookupClient p.clients t.id).isSome)
    (hidx : p.index < p.rotation_order.length) :
    ∃ r idx, p.selectFromTop top = some (r, idx) ∧ idx < p.rotation_order.length := by
  rcases hh : top.head? with _ | t
  · cases top with
    | nil => exact absurd rfl hne
    | cons a l => cases hh
  · unfold ClientPool.selectFromTop
    by_cases hlen : top.length = 1
    · rw [if_pos hlen]
      exact ⟨(some t.id, some t.id), p.index, by simp only [hh], hidx⟩
    · rw [if_neg hlen]
      rcases rrLoop_progress p.rotation_order (top.map (fun w => w.id))
          p.rotation_order.length p.index hidx with ⟨res, idx1, hr, hb⟩
      rcases res with _ | cid
      · exact ⟨(some t.id, some t.id), idx1, by simp only [hr, hh], hb⟩
      · have hmem : cid ∈ top.map (fun w => w.id) := rrLoop_found _ _ _ _ hr
        rcases List.mem_map.1 hmem with ⟨t0, ht0, hteq⟩
        have := hlk t0 ht0
        rw [hteq] at this
        rcases Option.isSome_iff_exists.1 this with ⟨w, hw⟩
        exact ⟨(some cid, some w.id), idx1, by simp only [hr, hw], hb⟩

theorem selectClient_total (p : ClientPool) (now : Nat)
    (hids : ∀ kv ∈ p.clients, kv.2.id = kv.1)
    (hrot : ∀ cid ∈ p.rotation_order, (lookupClient p.clients cid).isSome)
    (hne : p.clients ≠ [])
    (hidx : p.index < p.rotation_order.length) :
    ∃ r idx, p.selectClient now = some (r, idx) ∧ idx < p.rotation_order.length := by
  unfold ClientPool.selectClient
  rw [if_neg hne]
  rcases Option.isSome_iff_exists.1 (collect_isSome hrot) with ⟨ws, hws⟩
  simp only [hws]
  by_cases hav : ws.filter (fun w => w.is_available now) = []
  · rw [if_pos hav]
    rcases minByAvail_isSome hne with ⟨w, hw⟩
    exact ⟨(some w.id, none), p.index, by simp only [hw], hidx⟩
  · rw [if_neg hav]
    have htopne : (ws.filter (fun w => w.is_available now)).filter
        (fun w => w.weight = maxWeight (ws.filter (fun w => w.is_available now))) ≠ [] := by
      rcases maxWeight_attained hav with ⟨w, hwmem, hweq⟩
      exact List.ne_nil_of_mem (List.mem_filter.2 ⟨hwmem, by simp [hweq]⟩)
    refine selectFromTop_total p _ htopne ?_ hidx
    intro t ht
    have ht2 : t ∈ ws := (List.mem_filter.1 (List.mem_filter.1 ht).1).1
    rw [collected_lookup_self hids hws ht2]
    rfl

theorem get_client_total (p : ClientPool) (now : Nat)
    (hids : ∀ kv ∈ p.clients, kv.2.id = kv.1)
    (hrot : ∀ cid ∈ p.rotation_order, (lookupClient p.clients cid).isSome)
    (hne : p.clients ≠ [])
    (hidx : p.index < p.rotation_order.length) :
    ∃ r p1, p.get_client now = some (r, p1) ∧
      p1.clients = p.clients ∧ p1.rotation_order = p.rotation_order ∧
      p1.mode = p.mode ∧ p1.index < p1.rotation_order.length := by
  rcases selectClient_total p now hids hrot hne hidx with ⟨r, idx, hsel, hb⟩
  exact ⟨r, { p with index := idx },
    by rw [ClientPool.get_client, hsel, Option.map_some'], rfl, rfl, rfl, hb⟩

theorem get_client_state {p : ClientPool} {now : Nat}
    {r : Option String × Option String} {p1 : ClientPool}
    (h : p.get_client now = some (r, p1)) :
    p1.clients = p.clients ∧ p1.rotation_order = p.rotation_order ∧
    p1.mode = p.mode := by
  rcases hsel : p.selectClient now with _ | ri
  · rw [ClientPool.get_client, hsel] at h
    cases h
  · rw [ClientPool.get_client, hsel, Option.map_some'] at h
    injection h with h1
    injection h1 with hrr hpp
    rw [← hpp]
    exact ⟨rfl, rfl, rfl⟩

/-! ## Well-formedness preservation -/

theorem WFpool_update {p : ClientPool} {cid : String} {f : ClientWrapper → ClientWrapper}
    (hf : ∀ w, (f w).id = w.id) (hp : WFpool p) :
    WFpool { p with clients := updateClient p.clients cid f } := by
  obtain ⟨h1, h2, h3, h4, h5⟩ := hp
  refine ⟨updateClient_ids h1 hf, ?_, ?_, ?_, ?_⟩
  · rw [updateClient_map_fst]
    exact h2
  · rw [updateClient_map_fst]
    exact h3
  · intro hc
    apply h4
    have hl := updateClient_length p.clients cid f
    dsimp only at hc
    rw [hc] at hl
    exact List.length_eq_zero.1 hl.symm
  · simpa using h5

theorem WFpool_add (p : ClientPool) (cid : String) (hp : WFpool p) :
    WFpool (p.add_client cid).1 := by
  obtain ⟨h1, h2, h3, h4, h5⟩ := hp
  unfold ClientPool.add_client
  by_cases hc : containsClient p.clients cid
  · rw [if_pos hc]
    exact ⟨h1, h2, h3, h4, h5⟩
  · rw [if_neg hc]
    have hnotin : cid ∉ p.clients.map Prod.fst := by
      intro hmem
      exact hc (lookup_isSome_iff.2 hmem)
    have hbase : WFpool
        { p with clients := p.clients ++ [(cid, ClientWrapper.init cid)],
                 rotation_order := p.rotation_order ++ [cid] } := by
      refine ⟨?_, ?_, ?_, ?_, ?_⟩
      · intro kv hkv
        rcases List.mem_append.1 hkv with hkv1 | hkv1
        · exact h1 kv hkv1
        · simp at hkv1
          subst hkv1
          rfl
      · simp only [List.map_append, List.map_cons, List.map_nil]
        rw [List.nodup_append]
        exact ⟨h2, List.nodup_singleton _, by simpa [List.disjoint_singleton] using hnotin⟩
      · simp only [List.map_append, List.map_cons, List.map_nil, h3]
      · simp
      · simp only [List.length_append, List.length_cons, List.length_nil]
        omega
    dsimp only
    split
    · exact hbase
    · exact hbase

theorem WFpool_remove (p : ClientPool) (cid : String) (hp : WFpool p) :
    WFpool (p.remove_client cid).1 := by
  obtain ⟨h1, h2, h3, h4, h5⟩ := hp
  unfold ClientPool.remove_client
  by_cases hc : containsClient p.clients cid
  · rw [if_neg (by simpa using hc)]
    by_cases hlen : p.clients.length ≤ 1
    · rw [if_pos hlen]
      exact ⟨h1, h2, h3, h4, h5⟩
    · rw [if_neg hlen]
      dsimp only
      have hmem : cid ∈ p.clients.map Prod.fst := lookup_isSome_iff.1 hc
      have hlenge : p.clients.length ≤ (eraseClient p.clients cid).length + 1 :=
        eraseClient_length_ge p.clients cid
      have hlpos : 0 < (eraseClient p.clients cid).length := by omega
      have hrotfst : eraseId p.rotation_order cid =
          (eraseClient p.clients cid).map Prod.fst := by
        rw [h3, eraseClient_map_fst]
      have hlrot : 0 < (eraseId p.rotation_order cid).length := by
        rw [hrotfst, List.length_map]
        exact hlpos
      refine ⟨?_, ?_, hrotfst, ?_, ?_⟩
      · intro kv hkv
        exact h1 kv (eraseClient_mem hkv)
      · dsimp only
        rw [eraseClient_map_fst]
        exact eraseId_nodup h2
      · dsimp only
        intro hnil
        rw [hnil] at hlpos
        simp at hlpos
      · dsimp only
        by_cases hi : (eraseId p.rotation_order cid).length ≤ p.index
        · rw [if_pos hi]
          exact hlrot
        · rw [if_neg hi]
          omega
  · rw [if_pos (by simpa using hc)]
    exact ⟨h1, h2, h3, h4, h5⟩

theorem WFpool_enable (p : ClientPool) (cid : String) (hp : WFpool p) :
    WFpool (p.enable_client cid).1 := by
  unfold ClientPool.enable_client
  rcases hlk : lookupClient p.clients cid with _ | w
  · exact hp
  · exact WFpool_update (fun w => rfl) hp

theorem WFpool_disable (p : ClientPool) (cid : String) (hp : WFpool p) :
    WFpool (p.disable_client cid).1 := by
  unfold ClientPool.disable_client
  rcases hlk : lookupClient p.clients cid with _ | w
  · exact hp
  · dsimp only
    split
    · exact hp
    · exact WFpool_update (fun w => rfl) hp

theorem WFpool_reset (p : ClientPool) (cid : String) (hp : WFpool p) :
    WFpool (p.reset_client cid).1 := by
  unfold ClientPool.reset_client
  rcases hlk : lookupClient p.clients cid with _ | w
  · exact hp
  · exact WFpool_update (fun w => rfl) hp

theorem WFpool_mark_success (p : ClientPool) (cid : String) (hp : WFpool p) :
    WFpool (p.mark_client_success cid) := by
  unfold ClientPool.mark_client_success
  rcases hlk : lookupClient p.clients cid with _ | w
  · exact hp
  · refine WFpool_update ?_ hp
    intro w0
    simp only [ClientWrapper.mark_success]
    split
    · rfl
    · rfl

theorem WFpool_mark_failure (p : ClientPool) (cid : String) (now : Nat) (hp : WFpool p) :
    WFpool (p.mark_client_failure cid now) := by
  unfold ClientPool.mark_client_failure
  rcases hlk : lookupClient p.clients cid with _ | w
  · exact hp
  · exact WFpool_update (fun w => rfl) hp

theorem WFpool_mark_pro_failure (p : ClientPool) (cid : String) (hp : WFpool p) :
    WFpool (p.mark_client_pro_failure cid) := by
  unfold ClientPool.mark_client_pro_failure
  rcases hlk : lookupClient p.clients cid with _ | w
  · exact hp
  · exact WFpool_update (fun w => rfl) hp

theorem WFpool_rot_lookup {p : ClientPool} (hp : WFpool p) :
    ∀ cid ∈ p.rotation_order, (lookupClient p.clients cid).isSome := by
  obtain ⟨h1, h2, h3, h4, h5⟩ := hp
  intro cid hcid
  rw [h3] at hcid
  exact lookup_isSome_iff.2 hcid

theorem WFpool_get_client {p : ClientPool} {now : Nat}
    {r : Option String × Option String} {p1 : ClientPool}
    (hp : WFpool p) (h : p.get_client now = some (r, p1)) : WFpool p1 := by
  obtain ⟨h1, h2, h3, h4, h5⟩ := hp
  rcases hsel : p.selectClient now with _ | ri
  · rw [ClientPool.get_client, hsel] at h
    cases h
  · rw [ClientPool.get_client, hsel, Option.map_some'] at h
    injection h with hh
    injection hh with hrr hpp
    rcases selectClient_total p now h1 (WFpool_rot_lookup ⟨h1, h2, h3, h4, h5⟩) h4 h5 with
      ⟨r0, idx0, hsel0, hb0⟩
    rw [hsel0] at hsel
    injection hsel with hri
    rw [← hpp, ← hri]
    exact ⟨h1, h2, h3, h4, hb0⟩

theorem WFpool_applyOp (p : ClientPool) (op : PoolOp) (hp : WFpool p) :
    ∃ p1, applyOp p op = some p1 ∧ WFpool p1 := by
  cases op with
  | add cid => exact ⟨_, rfl, WFpool_add p cid hp⟩
  | remove cid => exact ⟨_, rfl, WFpool_remove p cid hp⟩
  | enable cid => exact ⟨_, rfl, WFpool_enable p cid hp⟩
  | disable cid => exact ⟨_, rfl, WFpool_disable p cid hp⟩
  | reset cid => exact ⟨_, rfl, WFpool_reset p cid hp⟩
  | success cid => exact ⟨_, rfl, WFpool_mark_success p cid hp⟩
  | failure cid now => exact ⟨_, rfl, WFpool_mark_failure p cid now hp⟩
  | proFailure cid => exact ⟨_, rfl, WFpool_mark_pro_failure p cid hp⟩
  | acquire now =>
      obtain ⟨h1, h2, h3, h4, h5⟩ := hp
      rcases get_client_total p now h1 (WFpool_rot_lookup ⟨h1, h2, h3, h4, h5⟩) h4 h5 with
        ⟨r, p1, hgc, _, _, _, _⟩
      exact ⟨p1, by simp [applyOp, hgc],
        WFpool_get_client ⟨h1, h2, h3, h4, h5⟩ hgc⟩

theorem WFpool_applyOps (ops : List PoolOp) :
    ∀ p, WFpool p → ∃ p1, applyOps p ops = some p1 ∧ WFpool p1 := by
  induction ops with
  | nil => exact fun p hp => ⟨p, rfl, hp⟩
  | cons op rest ih =>
      intro p hp
      rcases WFpool_applyOp p op hp with ⟨p1, hop, hp1⟩
      rcases ih p1 hp1 with ⟨p2, hops, hp2⟩
      exact ⟨p2, by simp [applyOps, hop, hops], hp2⟩

/-- C10: from any well-formed pool state (ids keyed consistently, rotation
sequence equal to the dict keys, non-empty pool, cursor in bounds — as
every bootstrap path with distinct ids establishes), any sequence of
public operations leaves the rotation cursor strictly inside the rotation
sequence, and `get_client` — including its cursor-indexed round-robin
loop — never faults. -/
theorem rotation_cursor_in_bounds (p : ClientPool) (ops : List PoolOp) (now : Nat)
    (hp : WFpool p) :
    ∃ p1, applyOps p ops = some p1 ∧ WFpool p1 ∧
      p1.index < p1.rotation_order.length ∧ (p1.get_client now).isSome := by
  rcases WFpool_applyOps ops p hp with ⟨p1, hops, hp1⟩
  obtain ⟨h1, h2, h3, h4, h5⟩ := hp1
  rcases get_client_total p1 now h1 (WFpool_rot_lookup ⟨h1, h2, h3, h4, h5⟩) h4 h5 with
    ⟨r, p2, hgc, _, _, _, _⟩
  exact ⟨p1, hops, ⟨h1, h2, h3, h4, h5⟩, h5, by simp [hgc]⟩

/-- Witness for `rotation_cursor_in_bounds`: a concrete run over the
three-record pool — acquire, remove `C`, disable `B`, acquire again —
stays in bounds and keeps the selector total. -/
theorem rotation_cursor_in_bounds_witness :
    ∃ p1, applyOps pool7 [PoolOp.acquire 0, PoolOp.remove "C", PoolOp.disable "B",
        PoolOp.acquire 0] = some p1 ∧ WFpool p1 ∧
      p1.index < p1.rotation_order.length ∧ (p1.get_client 0).isSome :=
  rotation_cursor_in_bounds pool7
    [PoolOp.acquire 0, PoolOp.remove "C", PoolOp.disable "B", PoolOp.acquire 0] 0
    (by decide)

/-! ## Enabled-record and non-emptiness invariants -/

theorem updateClient_ne_nil {cs : List (String × ClientWrapper)} {cid : String}
    {f : ClientWrapper → ClientWrapper} (h : cs ≠ []) : updateClient cs cid f ≠ [] := by
  cases cs with
  | nil => exact absurd rfl h
  | cons kv rest =>
      unfold updateClient
      split
      · simp
      · simp

theorem add_client_ne_nil (p : ClientPool) (cid : String) (hne : p.clients ≠ []) :
    (p.add_client cid).1.clients ≠ [] := by
  unfold ClientPool.add_client
  by_cases hc : containsClient p.clients cid
  · rw [if_pos hc]
    exact hne
  · rw [if_neg hc]
    dsimp only
    split
    · simp
    · simp

theorem remove_client_ne_nil (p : ClientPool) (cid : String) (hne : p.clients ≠ []) :
    (p.remove_client cid).1.clients ≠ [] := by
  unfold ClientPool.remove_client
  by_cases hc : containsClient p.clients cid
  · rw [if_neg (by simpa using hc)]
    by_cases hlen : p.clients.length ≤ 1
    · rw [if_pos hlen]
      exact hne
    · rw [if_neg hlen]
      dsimp only
      have := eraseClient_length_ge p.clients cid
      intro hnil
      rw [hnil] at this
      simp at this
      omega
  · rw [if_pos (by simpa using hc)]
    exact hne

theorem applyOp_ne_nil (p : ClientPool) (op : PoolOp) (p1 : ClientPool)
    (h : applyOp p op = some p1) (hne : p.clients ≠ []) : p1.clients ≠ [] := by
  cases op with
  | add cid =>
      simp only [applyOp] at h
      injection h with h1
      rw [← h1]
      exact add_client_ne_nil p cid hne
  | remove cid =>
      simp only [applyOp] at h
      injection h with h1
      rw [← h1]
      exact remove_client_ne_nil p cid hne
  | enable cid =>
      simp only [applyOp] at h
      injection h with h1
      rw [← h1]
      unfold ClientPool.enable_client
      rcases lookupClient p.clients cid with _ | w
      · exact hne
      · exact updateClient_ne_nil hne
  | disable cid =>
      simp only [applyOp] at h
      injection h with h1
      rw [← h1]
      unfold ClientPool.disable_client
      rcases lookupClient p.clients cid with _ | w
      · exact hne
      · dsimp only
        split
        · exact hne
        · exact updateClient_ne_nil hne
  | reset cid =>
      simp only [applyOp] at h
      injection h with h1
      rw [← h1]
      unfold ClientPool.reset_client
      rcases lookupClient p.clients cid with _ | w
      · exact hne
      · exact updateClient_ne_nil hne
  | success cid =>
      simp only [applyOp] at h
      injection h with h1
      rw [← h1]
      unfold ClientPool.mark_client_success
      rcases lookupClient p.clients cid with _ | w
      · exact hne
      · exact updateClient_ne_nil hne
  | failure cid now =>
      simp only [applyOp] at h
      injection h with h1
      rw [← h1]
      unfold ClientPool.mark_client_failure
      rcases lookupClient p.clients cid with _ | w
      · exact hne
      · exact updateClient_ne_nil hne
  | proFailure cid =>
      simp only [applyOp] at h
      injection h with h1
      rw [← h1]
      unfold ClientPool.mark_client_pro_failure
      rcases lookupClient p.clients cid with _ | w
      · exact hne
      · exact updateClient_ne_nil hne
  | acquire now =>
      simp only [applyOp] at h
      rcases hgc : p.get_client now with _ | rp
      · rw [hgc] at h
        cases h
      · rw [hgc, Option.map_some'] at h
        injection h with h1
        rcases rp with ⟨r, p2⟩
        rcases get_client_state hgc with ⟨hcl, _, _⟩
        rw [← h1]
        dsimp only at hcl ⊢
        rw [hcl]
        exact hne

theorem applyOps_ne_nil (ops : List PoolOp) :
    ∀ p p1, applyOps p ops = some p1 → p.clients ≠ [] → p1.clients ≠ [] := by
  induction ops with
  | nil =>
      intro p p1 h hne
      simp only [applyOps] at h
      injection h with h1
      rw [← h1]
      exact hne
  | cons op rest ih =>
      intro p p1 h hne
      simp only [applyOps] at h
      rcases hop : applyOp p op with _ | p2
      · rw [hop] at h
        cases h
      · rw [hop] at h
        exact ih p2 p1 h (applyOp_ne_nil p op p2 hop hne)

/-- C1 counterexample: from the pool `[A enabled, B disabled]`, which has
exactly one enabled record, `remove_client "A"` succeeds with status `ok`
and leaves a pool with zero enabled records — `remove_client` checks only
the pool size, not enabledness. -/
theorem remove_client_drops_last_enabled :
    1 ≤ enabledCount pool2.clients ∧
    (pool2.remove_client "A").2 = AdminStatus.ok ∧
    enabledCount (pool2.remove_client "A").1.clients = 0 :=
  ⟨by decide, by decide, by decide⟩

/-- C1 amended: `disable_client` preserves the at-least-one-enabled
invariant and rejects, without mutating anything, a disable that would
leave zero enabled records; `remove_client` rejects removing the last
record, so any sequence of pool operations keeps the pool non-empty — but
`remove_client` only checks pool size, so the amended guarantee for
arbitrary admin sequences is non-emptiness of the pool, not the existence
of an enabled record. -/
theorem admin_enabled_invariants (p : ClientPool) (cid : String) (ops : List PoolOp) :
    (1 ≤ enabledCount p.clients →
      1 ≤ enabledCount (p.disable_client cid).1.clients) ∧
    (∀ w, lookupClient p.clients cid = some w → w.enabled = true →
      enabledCount p.clients ≤ 1 → p.disable_client cid = (p, AdminStatus.error)) ∧
    (p.clients ≠ [] → (p.remove_client cid).1.clients ≠ []) ∧
    (containsClient p.clients cid = true → p.clients.length ≤ 1 →
      p.remove_client cid = (p, AdminStatus.error)) ∧
    (p.clients ≠ [] → ∀ p1, applyOps p ops = some p1 → p1.clients ≠ []) := by
  refine ⟨?_, ?_, remove_client_ne_nil p cid, ?_, ?_⟩
  · intro hcount
    unfold ClientPool.disable_client
    rcases hlk : lookupClient p.clients cid with _ | w
    · exact hcount
    · dsimp only
      by_cases hcond : enabledCount p.clients ≤ 1 ∧ w.enabled
      · rw [if_pos hcond]
        exact hcount
      · rw [if_neg hcond]
        dsimp only
        by_cases hw : w.enabled = true
        · have h2 : ¬ enabledCount p.clients ≤ 1 := fun hle => hcond ⟨hle, hw⟩
          have := enabledCount_disable_enabled hlk hw
          omega
        · have hw0 : w.enabled = false := by
            cases hwe : w.enabled
            · rfl
            · exact absurd hwe hw
          rw [enabledCount_disable_disabled hlk hw0]
          exact hcount
  · intro w hlk hw hcount
    unfold ClientPool.disable_client
    rw [hlk]
    dsimp only
    rw [if_pos ⟨hcount, hw⟩]
  · intro hc hlen
    unfold ClientPool.remove_client
    rw [if_neg (not_not_intro hc), if_pos hlen]
  · intro hne p1 h
    exact applyOps_ne_nil ops p p1 h hne

/-- Witness for `admin_enabled_invariants`: disabling `A`, the last
enabled record of the two-record pool, is rejected and mutates nothing. -/
theorem admin_enabled_invariants_witness :
    pool2.disable_client "A" = (pool2, AdminStatus.error) :=
  (admin_enabled_invariants pool2 "A" []).2.1 (ClientWrapper.init "A")
    (by decide) (by decide) (by decide)
